import Mathlib

/-!
Shallow embedding of the resource-safety and task-lifecycle core of the
kernel: the Banker deadlock-avoidance ledger (`os/src/sync/deadlock_detection.rs`)
and the task lifecycle state machine (`os/src/task/task.rs`).

Rust `Vec` / `VecDeque` become `List`; `usize` arithmetic becomes `Nat`
(the kernel never overflows these counters in the modelled operations,
and Rust would panic on underflow where we use guarded `Nat` subtraction);
indexing that would panic out of range is embedded with `List.getD` /
`List.set` (which are total), with well-formedness hypotheses supplied
where a theorem needs in-range behaviour; `&mut self` methods become
functions returning the new state paired with the Rust return value;
`assert!` / `panic!` paths return `none`.
-/

/-- Cell read `m[i][j]` of a matrix stored as a list of rows. -/
def getCell (m : List (List Nat)) (i j : Nat) : Nat :=
  (m.getD i []).getD j 0

/-- In-place update `m[i][j] = f (m[i][j])` of a matrix. -/
def updateCell (m : List (List Nat)) (i j : Nat) (f : Nat → Nat) : List (List Nat) :=
  m.set i ((m.getD i []).set j (f (getCell m i j)))

/-- Rust `self.xs[i].fill(0)`: zero the `i`-th row, keeping its length. -/
def zeroRow (m : List (List Nat)) (i : Nat) : List (List Nat) :=
  m.set i ((m.getD i []).map (fun _ => 0))

/-- Rust `self.xs.iter_mut().for_each(|task| task[j] = 0)`: zero column `j`. -/
def zeroCol (m : List (List Nat)) (j : Nat) : List (List Nat) :=
  m.map (fun task => task.set j 0)

/-- The Banker ledger, from `struct Banker<R>` in `deadlock_detection.rs`.
`resources` holds `some r` for an occupied slot and `none` for a
deallocated one; `recycle` is the FIFO queue of recycled slot ids
(front = head of the list). -/
structure Banker (R : Type) where
  resources : List (Option R)
  recycle : List Nat
  num_tasks : Nat
  max : List (List Nat)
  allocated : List (List Nat)
  available : List Nat
  need : List (List Nat)
deriving DecidableEq

/-- `Banker::new()`. -/
def Banker.new (R : Type) : Banker R where
  resources := []
  recycle := []
  num_tasks := 1
  max := [[]]
  allocated := [[]]
  available := []
  need := [[]]

/-- `Banker::add_task`: push a zero row to each matrix, increment
`num_tasks`, and return (new state, returned id). The Rust function
returns `self.num_tasks` after the increment. -/
def Banker.add_task {R : Type} (b : Banker R) : Banker R × Nat :=
  ({ b with
      num_tasks := b.num_tasks + 1
      max := b.max ++ [List.replicate b.resources.length 0]
      allocated := b.allocated ++ [List.replicate b.resources.length 0]
      need := b.need ++ [List.replicate b.resources.length 0] },
   b.num_tasks + 1)

/-- `Banker::remove_task`. -/
def Banker.remove_task {R : Type} (b : Banker R) (task_id : Nat) : Banker R × Bool :=
  if b.num_tasks ≤ task_id then (b, false)
  else
    ({ b with
        max := zeroRow b.max task_id
        allocated := zeroRow b.allocated task_id
        need := zeroRow b.need task_id }, true)

/-- `Banker::add_resource`: reuse the front of the recycle queue if
nonempty, else append a fresh slot and extend every task row by a zero. -/
def Banker.add_resource {R : Type} (b : Banker R) (resource : R) (total : Nat) : Banker R :=
  match b.recycle with
  | id :: rest =>
      { b with
          resources := b.resources.set id (some resource)
          available := b.available.set id total
          recycle := rest }
  | [] =>
      { b with
          resources := b.resources ++ [some resource]
          available := b.available ++ [total]
          max := b.max.map (fun task => task ++ [0])
          allocated := b.allocated.map (fun task => task ++ [0])
          need := b.need.map (fun task => task ++ [0]) }

/-- `Banker::resource_id`: position of the first slot equal to
`Some(resource)`. -/
def Banker.resource_id {R : Type} [DecidableEq R] (b : Banker R) (resource : R) : Option Nat :=
  b.resources.findIdx? (fun res => res = some resource)

/-- `Banker::remove_resource`. -/
def Banker.remove_resource {R : Type} [DecidableEq R] (b : Banker R) (resource : R) :
    Banker R × Bool :=
  match b.resource_id resource with
  | some id =>
      ({ b with
          resources := b.resources.set id none
          recycle := b.recycle ++ [id]
          available := b.available.set id 0
          max := zeroCol b.max id
          allocated := zeroCol b.allocated id
          need := zeroCol b.need id }, true)
  | none => (b, false)

/-- `Banker::release`: guarded decrement of `allocated[task][resource]`
(the only field the Rust code touches). -/
def Banker.release {R : Type} [DecidableEq R] (b : Banker R) (task_id : Nat) (resource : R)
    (amount : Nat) : Banker R × Bool :=
  if b.num_tasks ≤ task_id then (b, false)
  else
    match b.resource_id resource with
    | none => (b, false)
    | some resource_id =>
        if getCell b.allocated task_id resource_id < amount then (b, false)
        else
          ({ b with
              allocated := updateCell b.allocated task_id resource_id (fun x => x - amount) },
           true)

/-- The inner `for resource_id in 0..self.resources.len()` check of
`is_safe`: the task's need row is elementwise ≤ `work` on the first
`nRes` slots. -/
def canFinish (needRow work : List Nat) (nRes : Nat) : Bool :=
  decide (∀ r < nRes, needRow.getD r 0 ≤ work.getD r 0)

/-- `for resource_id in 0..nRes { work[resource_id] += row[resource_id] }`. -/
def bumpAll (work row : List Nat) : Nat → List Nat
  | 0 => work
  | n + 1 => (bumpAll work row n).set n ((bumpAll work row n).getD n 0 + row.getD n 0)

/-- State of the scan in `is_safe`: `work`, `finish`, `count`, and the
per-pass `found` flag. -/
structure ScanSt where
  work : List Nat
  finish : List Bool
  count : Nat
  found : Bool
deriving DecidableEq

/-- One iteration of the `for task_id in 0..self.num_tasks` loop body of
`is_safe`. -/
def scanStep (need alloc : List (List Nat)) (nRes : Nat) (st : ScanSt) (task_id : Nat) :
    ScanSt :=
  if st.finish.getD task_id false then st
  else if canFinish (need.getD task_id []) st.work nRes then
    { work := bumpAll st.work (alloc.getD task_id []) nRes
      finish := st.finish.set task_id true
      count := st.count + 1
      found := true }
  else st

/-- One full pass of the inner `for` loop of `is_safe`, starting with
`found := false`. -/
def scanPass (need alloc : List (List Nat)) (nRes nTasks : Nat) (work : List Nat)
    (finish : List Bool) (count : Nat) : ScanSt :=
  (List.range nTasks).foldl (scanStep need alloc nRes)
    { work := work, finish := finish, count := count, found := false }

/-- The `while count < self.num_tasks` loop of `is_safe`. It terminates
because a pass with `found = true` strictly increases `count`. -/
def safeLoop (need alloc : List (List Nat)) (nRes nTasks : Nat) (work : List Nat)
    (finish : List Bool) (count : Nat) : Bool :=
  if h : count < nTasks then
    if hf : (scanPass need alloc nRes nTasks work finish count).found then
      safeLoop need alloc nRes nTasks
        (scanPass need alloc nRes nTasks work finish count).work
        (scanPass need alloc nRes nTasks work finish count).finish
        (scanPass need alloc nRes nTasks work finish count).count
    else false
  else true
termination_by nTasks - count
decreasing_by
  have key : ∀ (l : List Nat) (st : ScanSt),
      st.count ≤ (l.foldl (scanStep need alloc nRes) st).count ∧
      ((l.foldl (scanStep need alloc nRes) st).found = true →
        st.found = true ∨ st.count < (l.foldl (scanStep need alloc nRes) st).count) := by
    intro l
    induction l with
    | nil => intro st; exact ⟨Nat.le_refl _, fun hfd => Or.inl hfd⟩
    | cons t l ih =>
        intro st
        have hstep : st.count ≤ (scanStep need alloc nRes st t).count ∧
            ((scanStep need alloc nRes st t).found = true →
              st.found = true ∨ st.count < (scanStep need alloc nRes st t).count) := by
          unfold scanStep
          split
          · exact ⟨Nat.le_refl _, fun hfd => Or.inl hfd⟩
          · split
            · exact ⟨Nat.le_succ _, fun _ => Or.inr (Nat.lt_succ_self _)⟩
            · exact ⟨Nat.le_refl _, fun hfd => Or.inl hfd⟩
        have := ih (scanStep need alloc nRes st t)
        simp only [List.foldl_cons]
        constructor
        · exact Nat.le_trans hstep.1 this.1
        · intro hfd
          rcases this.2 hfd with h | h
          · rcases hstep.2 h with h' | h'
            · exact Or.inl h'
            · exact Or.inr (Nat.lt_of_lt_of_le h' this.1)
          · exact Or.inr (Nat.lt_of_le_of_lt hstep.1 h)
  have hk := key (List.range nTasks)
    { work := work, finish := finish, count := count, found := false }
  unfold scanPass at hf
  rcases (hk.2 hf) with hcontra | hlt
  · exact absurd hcontra Bool.false_ne_true
  · exact Nat.sub_lt_sub_left h hlt

/-- `Banker::is_safe`: the finish-simulation safety check. Pure: it takes
`&self` in Rust and is a plain function here. -/
def Banker.is_safe {R : Type} (b : Banker R) : Bool :=
  safeLoop b.need b.allocated b.resources.length b.num_tasks b.available
    (List.replicate b.num_tasks false) 0

/-- Fuel-indexed variant of `safeLoop`, used to state that the loop needs
at most `num_tasks` passes (the termination measure of the claim). When
fuel runs out it answers the loop guard directly. -/
def loopFuel (need alloc : List (List Nat)) (nRes nTasks : Nat) :
    Nat → List Nat → List Bool → Nat → Bool
  | 0, _, _, count => decide (nTasks ≤ count)
  | fuel + 1, work, finish, count =>
    if nTasks ≤ count then true
    else
      if (scanPass need alloc nRes nTasks work finish count).found then
        loopFuel need alloc nRes nTasks fuel
          (scanPass need alloc nRes nTasks work finish count).work
          (scanPass need alloc nRes nTasks work finish count).finish
          (scanPass need alloc nRes nTasks work finish count).count
      else false

/-- `is_safe` run with an explicit bound on the number of passes of the
outer `while` loop. -/
def Banker.isSafeFuel {R : Type} (b : Banker R) (fuel : Nat) : Bool :=
  loopFuel b.need b.allocated b.resources.length b.num_tasks fuel b.available
    (List.replicate b.num_tasks false) 0

/-- `Banker::try_request`: speculative admission check. Temporarily raises
`max` and `need` at the cell, runs `is_safe`, rolls the raise back, and
returns the checker's verdict. -/
def Banker.try_request {R : Type} [DecidableEq R] (b : Banker R) (task_id : Nat) (resource : R)
    (amount : Nat) : Banker R × Bool :=
  if b.num_tasks ≤ task_id then (b, false)
  else
    match b.resource_id resource with
    | none => (b, false)
    | some resource_id =>
        if b.available.getD resource_id 0 < amount then (b, false)
        else
          let b1 : Banker R :=
            { b with
                max := updateCell b.max task_id resource_id (fun x => x + amount)
                need := updateCell b.need task_id resource_id (fun x => x + amount) }
          let verdict := b1.is_safe
          let b2 : Banker R :=
            { b1 with
                max := updateCell b1.max task_id resource_id (fun x => x - amount)
                need := updateCell b1.need task_id resource_id (fun x => x - amount) }
          (b2, verdict)

/-- `Banker::request`: the unconditional grant path. Its `assert!` /
`panic!` failures are embedded as `none`. -/
def Banker.request {R : Type} [DecidableEq R] (b : Banker R) (task_id : Nat) (resource : R)
    (amount : Nat) : Option (Banker R) :=
  if b.num_tasks ≤ task_id then none
  else
    match b.resource_id resource with
    | none => none
    | some resource_id =>
        if b.available.getD resource_id 0 < amount then none
        else
          some { b with
              max := updateCell b.max task_id resource_id (fun x => x + amount)
              need := updateCell b.need task_id resource_id (fun x => x + amount)
              allocated := updateCell b.allocated task_id resource_id (fun x => x + amount)
              available := b.available.set resource_id (b.available.getD resource_id 0 - amount) }

/-- Per-task record from `task.rs`: the saved context (`TaskContext`, an
opaque blob outside this core, so a type parameter here), the start
timestamp, and the per-syscall counters (`[u32; MAX_SYSCALL_NUM]`,
embedded as a list of naturals below `2^32`). -/
structure TaskInfo (C : Type) where
  task_cx : C
  start_time : Nat
  syscall_times : List Nat
deriving DecidableEq

/-- `TaskInfo::sys_call_inc`: `self.syscall_times[syscall_id] += 1` with
`u32` wrap-around. -/
def TaskInfo.sys_call_inc {C : Type} (info : TaskInfo C) (syscall_id : Nat) : TaskInfo C :=
  { info with
      syscall_times :=
        info.syscall_times.set syscall_id
          ((info.syscall_times.getD syscall_id 0 + 1) % 2 ^ 32) }

/-- The task control block enum of `task.rs`. -/
inductive TaskControlBlock (C : Type) where
  | UnInit (info : TaskInfo C)
  | Ready (info : TaskInfo C)
  | Running (info : TaskInfo C)
  | Exited (info : TaskInfo C)
deriving DecidableEq

/-- The plain status enum of `task.rs`. -/
inductive TaskStatus where
  | UnInit
  | Ready
  | Running
  | Exited
deriving DecidableEq

/-- `TaskControlBlock::status`. -/
def TaskControlBlock.status {C : Type} : TaskControlBlock C → TaskStatus
  | .UnInit _ => .UnInit
  | .Ready _ => .Ready
  | .Running _ => .Running
  | .Exited _ => .Exited

/-- Payload of a block, whatever its state tag. -/
def TaskControlBlock.infoOf {C : Type} : TaskControlBlock C → TaskInfo C
  | .UnInit i => i
  | .Ready i => i
  | .Running i => i
  | .Exited i => i

/-- `TaskControlBlock::turn_to_running`. The Rust method mutates `self`
and returns `Result<(), &str>`; here it returns the result paired with
the new block. `now` is the value `get_time_ms()` would return. -/
def TaskControlBlock.turn_to_running {C : Type} (t : TaskControlBlock C) (now : Nat) :
    Except String Unit × TaskControlBlock C :=
  match t with
  | .Ready info =>
      let info2 := if info.start_time = 0 then { info with start_time := now } else info
      (Except.ok (), .Running info2)
  | _ => (Except.error "TaskControlBlock::turn_to_running: not a Ready task", t)

/-- `TaskControlBlock::try_turn_to_ready`. -/
def TaskControlBlock.try_turn_to_ready {C : Type} (t : TaskControlBlock C) :
    Except String Unit × TaskControlBlock C :=
  match t with
  | .Running info => (Except.ok (), .Ready info)
  | _ => (Except.error "TaskControlBlock::turn_to_ready: not a Running task", t)

/-- `TaskControlBlock::turn_to_exited`. -/
def TaskControlBlock.turn_to_exited {C : Type} (t : TaskControlBlock C) : TaskControlBlock C :=
  match t with
  | .Running info => .Exited info
  | .Ready info => .Exited info
  | .UnInit info => .Exited info
  | .Exited info => .Exited info

/-- `TaskControlBlock::sys_call_inc`. -/
def TaskControlBlock.sys_call_inc {C : Type} (t : TaskControlBlock C) (syscall_id : Nat) :
    Option Unit × TaskControlBlock C :=
  match t with
  | .Ready info => (some (), .Ready (info.sys_call_inc syscall_id))
  | .Running info => (some (), .Running (info.sys_call_inc syscall_id))
  | _ => (none, t)

/-- A lifecycle operation, for stating properties over arbitrary
transition sequences; each constructor applies the corresponding source
method. -/
inductive LifecycleOp where
  | toRunning (now : Nat)
  | toReady
  | toExited
  | callInc (id : Nat)
deriving DecidableEq

/-- Apply one lifecycle operation to a block. -/
def applyOp {C : Type} (t : TaskControlBlock C) : LifecycleOp → TaskControlBlock C
  | .toRunning now => (t.turn_to_running now).2
  | .toReady => t.try_turn_to_ready.2
  | .toExited => t.turn_to_exited
  | .callInc id => (t.sys_call_inc id).2

/-- The start timestamp currently stored in a block. -/
def startOf {C : Type} (t : TaskControlBlock C) : Nat :=
  t.infoOf.start_time

/-- Column sum `Σ_t m[t][r]` over all task rows. -/
def colSum (m : List (List Nat)) (r : Nat) : Nat :=
  (m.map (fun row => row.getD r 0)).sum

/-- `available[r]` plus the allocations of the tasks listed in `σ` at
slot `r`: the `work` vector reached after the tasks in `σ` finish. -/
def workOf {R : Type} (b : Banker R) (σ : List Nat) (r : Nat) : Nat :=
  b.available.getD r 0 + (σ.map (fun t => getCell b.allocated t r)).sum

/-- The safe-ordering property of the claim: `σ` enumerates all task rows
(`0..num_tasks`) and each task's need is covered by `available` plus the
allocations of the tasks ordered before it. -/
def SafeOrdering {R : Type} (b : Banker R) (σ : List Nat) : Prop :=
  σ.Perm (List.range b.num_tasks) ∧
  ∀ i, i < σ.length → ∀ r, r < b.resources.length →
    getCell b.need (σ.getD i 0) r ≤ workOf b (σ.take i) r

/-- Loop invariant of `is_safe`: some list `σ` of distinct task ids
records, in order, the tasks simulated as finished so far; `finish`
marks exactly its members, `count` is its length, `work` is `available`
plus their allocations, and `σ` is a safe order among its own members. -/
def LoopInv {R : Type} (b : Banker R) (work : List Nat) (finish : List Bool) (count : Nat) :
    Prop :=
  ∃ σ : List Nat,
    σ.Nodup ∧
    σ.length = count ∧
    (∀ t, t ∈ σ ↔ (t < b.num_tasks ∧ finish.getD t false = true)) ∧
    work.length = b.available.length ∧
    (∀ r, work.getD r 0 = workOf b σ r) ∧
    finish.length = b.num_tasks ∧
    (∀ i, i < σ.length → ∀ r, r < b.resources.length →
      getCell b.need (σ.getD i 0) r ≤ workOf b (σ.take i) r)

/-- Shape well-formedness of a ledger: the matrices have one row per
task and one column per resource slot, and `available` has one entry per
slot. Every state reachable from `Banker::new` satisfies this. -/
def WF {R : Type} (b : Banker R) : Prop :=
  b.available.length = b.resources.length ∧
  b.need.length = b.num_tasks ∧
  b.allocated.length = b.num_tasks ∧
  b.max.length = b.num_tasks ∧
  (∀ row ∈ b.need, row.length = b.resources.length) ∧
  (∀ row ∈ b.allocated, row.length = b.resources.length) ∧
  (∀ row ∈ b.max, row.length = b.resources.length)

instance {R : Type} (b : Banker R) : Decidable (WF b) := by
  unfold WF; infer_instance

/-- Need-consistency at every tracked cell: `need[t][r] = max[t][r] −
allocated[t][r]` for every task id and resource slot. -/
def NeedConsistent {R : Type} (b : Banker R) : Prop :=
  ∀ t, t < b.num_tasks → ∀ r, r < b.resources.length →
    getCell b.need t r = getCell b.max t r - getCell b.allocated t r

instance {R : Type} (b : Banker R) : Decidable (NeedConsistent b) := by
  unfold NeedConsistent; infer_instance

/-- The slot id that the next `add_resource` will occupy: the front of
the recycle queue if any, else the fresh appended index. -/
def newSlot {R : Type} (b : Banker R) : Nat :=
  match b.recycle with
  | id :: _ => id
  | [] => b.resources.length

/-- Test fixture: the spec §8 scenario start — a fresh ledger, one extra
task, one resource of identity `1` with total `10`. -/
def bScenario : Banker Nat :=
  (Banker.new Nat).add_task.1.add_resource 1 10

/-- Test fixture: the scenario after task 1 grants itself 7 units
(`request`), leaving `available = 3`. -/
def bGranted : Banker Nat :=
  (bScenario.request 1 1 7).getD (Banker.new Nat)

/-- Test fixture: ledger with one resource of total 10 and the reserved
task row 0 only. -/
def bReqCx : Banker Nat :=
  (Banker.new Nat).add_resource 1 10

/-- Test fixture: `bReqCx` after task 0 requests 7 units. -/
def bReqCx2 : Banker Nat :=
  (bReqCx.request 0 1 7).getD (Banker.new Nat)

/-- Test fixture: a hand-built consistent ledger (`need = max −
allocated`: 2 = 7 − 5) holding one resource. -/
def bManual : Banker Nat :=
  ⟨[some 1], [], 1, [[7]], [[5]], [5], [[2]]⟩

/-- Test fixture: ledger whose recycle queue holds the two slots 0 and 1
(in that FIFO order), obtained by registering identities 10 and 11 and
unregistering both. -/
def bQueue2 : Banker Nat :=
  (((((Banker.new Nat).add_resource 10 1).add_resource 11 1).remove_resource
    10).1.remove_resource 11).1

/-- Test fixture: `bQueue2` after registering identity 20 (the claim's
resource A) with total 5; 20 lands in recycled slot 0. -/
def bWithA : Banker Nat :=
  bQueue2.add_resource 20 5

/-- Test fixture: `bWithA` after unregistering 20 and registering
identity 21 (the claim's resource B) with total 7. -/
def bAfterB : Banker Nat :=
  ((bWithA.remove_resource 20).1.add_resource 21 7)

/-- Test fixture: a ready task block with unset (zero) start time. -/
def tReady0 : TaskControlBlock Unit :=
  TaskControlBlock.Ready ⟨(), 0, []⟩

/-- Test fixture: ledger with exactly one recycled slot queued (slot 0,
left by registering and unregistering identity 10). -/
def bOneSlot : Banker Nat :=
  (((Banker.new Nat).add_resource 10 1).remove_resource 10).1

/-!
Helper lemmas about list reads and writes.
-/

theorem getD_set_self {α : Type} : ∀ (l : List α) (i : Nat) (v d : α), i < l.length →
    (l.set i v).getD i d = v
  | [], i, _, _, h => absurd h (Nat.not_lt_zero i)
  | _ :: _, 0, _, _, _ => rfl
  | _ :: l, i + 1, v, d, h => getD_set_self l i v d (Nat.lt_of_succ_lt_succ h)

theorem getD_set_ne {α : Type} : ∀ (l : List α) (i j : Nat) (v d : α), i ≠ j →
    (l.set i v).getD j d = l.getD j d
  | [], _, _, _, _, _ => rfl
  | _ :: _, 0, 0, _, _, h => absurd rfl h
  | _ :: _, 0, _ + 1, _, _, _ => rfl
  | _ :: _, _ + 1, 0, _, _, _ => rfl
  | _ :: l, i + 1, j + 1, v, d, h =>
      getD_set_ne l i j v d (fun he => h (congrArg Nat.succ he))

theorem getD_oob {α : Type} : ∀ (l : List α) (i : Nat) (d : α), l.length ≤ i → l.getD i d = d
  | [], 0, _, _ => rfl
  | [], _ + 1, _, _ => rfl
  | _ :: _, 0, _, h => by simp at h
  | _ :: l, i + 1, d, h => getD_oob l i d (Nat.le_of_succ_le_succ h)

theorem set_getD_self {α : Type} : ∀ (l : List α) (i : Nat) (d : α), l.set i (l.getD i d) = l
  | [], _, _ => rfl
  | _ :: _, 0, _ => rfl
  | a :: l, i + 1, d => congrArg (a :: .) (set_getD_self l i d)

theorem set_oob {α : Type} : ∀ (l : List α) (i : Nat) (v : α), l.length ≤ i → l.set i v = l
  | [], _, _, _ => rfl
  | _ :: _, 0, _, h => by simp at h
  | a :: l, i + 1, v, h => congrArg (a :: .) (set_oob l i v (Nat.le_of_succ_le_succ h))

theorem getD_replicate_of_lt {α : Type} : ∀ (n i : Nat) (b d : α), i < n →
    (List.replicate n b).getD i d = b
  | 0, i, _, _, h => absurd h (Nat.not_lt_zero i)
  | _ + 1, 0, _, _, _ => rfl
  | n + 1, i + 1, b, d, h => getD_replicate_of_lt n i b d (Nat.lt_of_succ_lt_succ h)

theorem getCell_oob_row (m : List (List Nat)) (i j : Nat) (h : m.length ≤ i) :
    getCell m i j = 0 := by
  unfold getCell
  rw [getD_oob m i [] h]
  rfl

/-!
Round-trip of `updateCell`: raising a cell by `a` and then lowering it by
`a` restores the matrix exactly, whatever its shape.
-/

theorem updateCell_roundtrip (m : List (List Nat)) (i j a : Nat) :
    updateCell (updateCell m i j (fun x => x + a)) i j (fun x => x - a) = m := by
  by_cases hi : i < m.length
  · unfold updateCell getCell
    simp only []
    by_cases hj : j < (m.getD i []).length
    · rw [getD_set_self m i _ [] hi]
      rw [getD_set_self (m.getD i []) j _ 0 hj]
      rw [Nat.add_sub_cancel]
      rw [List.set_set]
      rw [List.set_set]
      rw [set_getD_self (m.getD i []) j 0]
      rw [set_getD_self m i []]
    · rw [set_oob (m.getD i []) j _ (Nat.le_of_not_lt hj)]
      rw [set_getD_self m i []]
      rw [set_oob (m.getD i []) j _ (Nat.le_of_not_lt hj)]
      rw [set_getD_self m i []]
  · unfold updateCell
    rw [set_oob m i _ (Nat.le_of_not_lt hi), set_oob m i _ (Nat.le_of_not_lt hi)]

/-!
C6, C2, C4: direct evaluations of the code on the failing inputs.
-/

/-- C6: code-bug exhibit. `add_task` on a fresh ledger does append one
zero row to each matrix (`num_tasks` becomes 2 and each matrix gets a
second row), but it returns `num_tasks` after the increment — 2, not the
new row's identifier 1 — and `remove_task` rejects that returned value
as out of range, contradicting the claim that the identifier returned by
`create_task` is accepted by `destroy_task`. -/
theorem c6_add_task_code_bug :
    (Banker.new Nat).add_task.2 = 2 ∧
    (Banker.new Nat).add_task.1.num_tasks = 2 ∧
    (Banker.new Nat).add_task.1.max = [[], []] ∧
    (Banker.new Nat).add_task.1.allocated = [[], []] ∧
    (Banker.new Nat).add_task.1.need = [[], []] ∧
    ((Banker.new Nat).add_task.1.remove_task (Banker.new Nat).add_task.2).2 = false := by
  decide

/-- C2: code-bug exhibit of the conservation invariant. In the spec §8
scenario (`bScenario`: resource 1 registered with total 10, task 1 then
granted 7 units so `available = 3` and conservation holds, 3 + 7 = 10),
a successful `release` of 4 units only decrements `allocated`, leaving
`available[0] + Σ_t allocated[t][0] = 3 + 3 = 6 ≠ 10`. -/
theorem c2_conservation_code_bug :
    bScenario.request 1 1 7 = some bGranted ∧
    bGranted.available.getD 0 0 + colSum bGranted.allocated 0 = 10 ∧
    (bGranted.release 1 1 4).2 = true ∧
    (bGranted.release 1 1 4).1.available.getD 0 0 + colSum (bGranted.release 1 1 4).1.allocated 0
      = 6 := by
  decide

/-- C4: code-bug exhibit. In the spec §8 scenario, after task 1 (holding
7 of the total-10 resource, `available = 3`) releases 4 units, the code
returns `true` and decrements `allocated[1][0]` to 3, but leaves
`available` at 3 (the claim says 7) and `need[1][0]` untouched (the
claim says it becomes 4: the code never restores `available` or
`need`). -/
theorem c4_release_code_bug :
    bScenario.request 1 1 7 = some bGranted ∧
    (bGranted.release 1 1 4).2 = true ∧
    getCell (bGranted.release 1 1 4).1.allocated 1 0 = 3 ∧
    (bGranted.release 1 1 4).1.available = [3] ∧
    getCell (bGranted.release 1 1 4).1.need 1 0 = 7 := by
  decide

/-!
C7: lifecycle transition guards and terminality of `Exited`.
-/

/-- C7: `turn_to_running` succeeds exactly from `Ready` and moves the
block to `Running`; `try_turn_to_ready` succeeds exactly from `Running`
and moves the block to `Ready`; every failing call returns the error and
leaves the block (tag and info) unchanged; and no operation —
`turn_to_running`, `try_turn_to_ready`, `turn_to_exited`,
`sys_call_inc` — changes an `Exited` block. -/
theorem c7_lifecycle_guards {C : Type} (t : TaskControlBlock C) (now sid : Nat)
    (i : TaskInfo C) :
    ((t.turn_to_running now).1 = Except.ok () ↔ t.status = TaskStatus.Ready) ∧
    ((TaskControlBlock.Ready i).turn_to_running now).2.status = TaskStatus.Running ∧
    (t.status ≠ TaskStatus.Ready →
      t.turn_to_running now
        = (Except.error "TaskControlBlock::turn_to_running: not a Ready task", t)) ∧
    (t.try_turn_to_ready.1 = Except.ok () ↔ t.status = TaskStatus.Running) ∧
    ((TaskControlBlock.Running i).try_turn_to_ready.2.status = TaskStatus.Ready) ∧
    (t.status ≠ TaskStatus.Running →
      t.try_turn_to_ready
        = (Except.error "TaskControlBlock::turn_to_ready: not a Running task", t)) ∧
    ((TaskControlBlock.Exited i).turn_to_running now).2 = TaskControlBlock.Exited i ∧
    (TaskControlBlock.Exited i).try_turn_to_ready.2 = TaskControlBlock.Exited i ∧
    (TaskControlBlock.Exited i).turn_to_exited = TaskControlBlock.Exited i ∧
    ((TaskControlBlock.Exited i).sys_call_inc sid).2 = TaskControlBlock.Exited i := by
  cases t <;>
    simp [TaskControlBlock.turn_to_running, TaskControlBlock.try_turn_to_ready,
      TaskControlBlock.turn_to_exited, TaskControlBlock.sys_call_inc, TaskControlBlock.status]

/-- C7 witness: the theorem applied to a concrete `Running` block — the
`Running → Running` attempt fails with the error and leaves the block
unchanged. -/
theorem c7_lifecycle_guards_witness :
    (TaskControlBlock.Running (⟨(), 0, []⟩ : TaskInfo Unit)).turn_to_running 3
      = (Except.error "TaskControlBlock::turn_to_running: not a Ready task",
         TaskControlBlock.Running ⟨(), 0, []⟩) :=
  (c7_lifecycle_guards (TaskControlBlock.Running ⟨(), 0, []⟩) 3 0 ⟨(), 0, []⟩).2.2.1
    (by decide)

/-!
C8: start time stamping.
-/

/-- C8: counterexample to "the start timestamp written at the first
successful entry into Running never changes, regardless of the
wall-clock values". If the clock reads 0 at the first entry, the stamped
value is 0 — indistinguishable from the unset sentinel — and a later
entry re-stamps: from `tReady0` (start time 0), running at time 0,
yielding, then running again at time 5 ends with start time 5, not the
first-entry stamp 0. -/
theorem c8_start_time_counterexample :
    (tReady0.turn_to_running 0).1 = Except.ok () ∧
    startOf (applyOp tReady0 (LifecycleOp.toRunning 0)) = 0 ∧
    startOf (List.foldl applyOp tReady0
      [LifecycleOp.toRunning 0, LifecycleOp.toReady, LifecycleOp.toRunning 5]) = 5 :=
  ⟨rfl, by decide, by decide⟩

/-- A single lifecycle operation never changes a nonzero start
timestamp: `turn_to_running` only stamps when the stored value is 0. -/
theorem startOf_applyOp {C : Type} (t : TaskControlBlock C) (op : LifecycleOp)
    (h : startOf t ≠ 0) : startOf (applyOp t op) = startOf t := by
  cases t <;> cases op <;>
    simp_all [applyOp, startOf, TaskControlBlock.infoOf, TaskControlBlock.turn_to_running,
      TaskControlBlock.try_turn_to_ready, TaskControlBlock.turn_to_exited,
      TaskControlBlock.sys_call_inc, TaskInfo.sys_call_inc]

/-- Sequences of lifecycle operations preserve a nonzero start
timestamp. -/
theorem startOf_foldl {C : Type} : ∀ (ops : List LifecycleOp) (t : TaskControlBlock C),
    startOf t ≠ 0 → startOf (ops.foldl applyOp t) = startOf t
  | [], _, _ => rfl
  | op :: ops, t, h => by
      rw [List.foldl_cons]
      rw [startOf_foldl ops (applyOp t op) (by rw [startOf_applyOp t op h]; exact h)]
      exact startOf_applyOp t op h

/-- C8 (amended): once the stored start timestamp is nonzero it never
changes under any sequence of lifecycle operations, and the first
successful entry into `Running` of a block whose timestamp is the unset
sentinel 0 stamps exactly the clock value. (The unamended claim fails
when the clock returns 0 at first entry — the stamp then remains the
sentinel and a later entry re-stamps, see the counterexample.) -/
theorem c8_start_time_amended {C : Type} (t : TaskControlBlock C) (ops : List LifecycleOp)
    (i : TaskInfo C) (now : Nat) (h : startOf t ≠ 0) :
    startOf (ops.foldl applyOp t) = startOf t ∧
    (i.start_time = 0 →
      (TaskControlBlock.Ready i).turn_to_running now
        = (Except.ok (), TaskControlBlock.Running { i with start_time := now })) := by
  refine ⟨startOf_foldl ops t h, fun h0 => ?_⟩
  simp [TaskControlBlock.turn_to_running, h0]

/-- C8 witness: the amended theorem applied to a block stamped at time 7
cycling Ready→Running→Ready→Running, and to a fresh block entering
Running at time 4. -/
theorem c8_start_time_amended_witness :
    startOf (List.foldl applyOp (TaskControlBlock.Ready (⟨(), 7, []⟩ : TaskInfo Unit))
        [LifecycleOp.toRunning 3, LifecycleOp.toReady, LifecycleOp.toRunning 9])
      = startOf (TaskControlBlock.Ready (⟨(), 7, []⟩ : TaskInfo Unit)) ∧
    ((⟨(), 0, []⟩ : TaskInfo Unit).start_time = 0 →
      (TaskControlBlock.Ready (⟨(), 0, []⟩ : TaskInfo Unit)).turn_to_running 4
        = (Except.ok (), TaskControlBlock.Running ⟨(), 4, []⟩)) :=
  c8_start_time_amended (TaskControlBlock.Ready ⟨(), 7, []⟩)
    [LifecycleOp.toRunning 3, LifecycleOp.toReady, LifecycleOp.toRunning 9]
    ⟨(), 0, []⟩ 4 (by decide)

/-!
C9: resource slot reuse.
-/

theorem getD_append_lt {α : Type} : ∀ (l l2 : List α) (i : Nat) (d : α), i < l.length →
    (l ++ l2).getD i d = l.getD i d
  | [], _, i, _, h => absurd h (Nat.not_lt_zero i)
  | _ :: _, _, 0, _, _ => rfl
  | _ :: l, l2, i + 1, d, h => getD_append_lt l l2 i d (Nat.lt_of_succ_lt_succ h)

theorem getD_append_len {α : Type} : ∀ (l : List α) (x : α) (d : α),
    (l ++ [x]).getD l.length d = x
  | [], _, _ => rfl
  | _ :: l, x, d => getD_append_len l x d

theorem findIdx?_last {α : Type} (p : α → Bool) (x : α) (hx : p x = true) :
    ∀ (l : List α) (s : Nat), (∀ y ∈ l, p y = false) →
      List.findIdx? p (l ++ [x]) s = some (s + l.length)
  | [], s, _ => by simp [List.findIdx?_cons, hx]
  | y :: l, s, h => by
      rw [List.cons_append, List.findIdx?_cons]
      rw [h y (List.mem_cons_self y l)]
      simp only [Bool.false_eq_true, if_false]
      rw [findIdx?_last p x hx l (s + 1) (fun z hz => h z (List.mem_cons_of_mem y hz))]
      simp only [List.length_cons]
      congr 1
      omega

theorem findIdx?_set_first {α : Type} (p : α → Bool) (v : α) (hv : p v = true) :
    ∀ (l : List α) (i s : Nat), i < l.length → (∀ y ∈ l, p y = false) →
      List.findIdx? p (l.set i v) s = some (s + i)
  | [], i, _, h, _ => absurd h (Nat.not_lt_zero i)
  | y :: l, 0, s, _, _ => by simp [List.findIdx?_cons, hv]
  | y :: l, i + 1, s, h, hall => by
      rw [List.set_cons_succ, List.findIdx?_cons]
      rw [hall y (List.mem_cons_self y l)]
      simp only [Bool.false_eq_true, if_false]
      rw [findIdx?_set_first p v hv l i (s + 1) (Nat.lt_of_succ_lt_succ h)
        (fun z hz => hall z (List.mem_cons_of_mem y hz))]
      congr 1
      omega

theorem getD_set_zero (row : List Nat) (j : Nat) : (row.set j 0).getD j 0 = 0 := by
  by_cases hj : j < row.length
  · exact getD_set_self row j 0 0 hj
  · rw [set_oob row j 0 (Nat.le_of_not_lt hj), getD_oob row j 0 (Nat.le_of_not_lt hj)]

theorem getCell_zeroCol_self : ∀ (m : List (List Nat)) (t j : Nat),
    getCell (zeroCol m j) t j = 0
  | [], t, j => by
      unfold zeroCol getCell
      simp [List.getD]
  | row :: m, 0, j => getD_set_zero row j
  | _ :: m, t + 1, j => getCell_zeroCol_self m t j

/-- C9: counterexample to "for every ledger state". `bQueue2` has the two
recycled slots 0 and 1 queued (FIFO). Registering A = 20 pops slot 0
(A's former slot is 0), unregistering A pushes 0 behind 1, and
registering B = 21 pops slot 1 — so B does NOT occupy A's former slot:
slot 0 is empty and B sits at slot 1. -/
theorem c9_slot_reuse_counterexample :
    bQueue2.recycle = [0, 1] ∧
    bWithA.resources.getD 0 none = some 20 ∧
    (bWithA.remove_resource 20).2 = true ∧
    bAfterB.resources.getD 0 none = none ∧
    bAfterB.resources.getD 1 none = some 21 := by
  decide


/-- Unfolding of `add_resource` when the recycle queue is empty. -/
theorem add_resource_fresh {R : Type} (b : Banker R) (res : R) (total : Nat)
    (h : b.recycle = []) :
    b.add_resource res total
      = { b with
            resources := b.resources ++ [some res]
            available := b.available ++ [total]
            max := b.max.map (fun task => task ++ [0])
            allocated := b.allocated.map (fun task => task ++ [0])
            need := b.need.map (fun task => task ++ [0]) } := by
  unfold Banker.add_resource
  rw [h]

/-- Unfolding of `add_resource` when the recycle queue has a front. -/
theorem add_resource_pop {R : Type} (b : Banker R) (res : R) (total front : Nat)
    (rest : List Nat) (h : b.recycle = front :: rest) :
    b.add_resource res total
      = { b with
            resources := b.resources.set front (some res)
            available := b.available.set front total
            recycle := rest } := by
  unfold Banker.add_resource
  rw [h]

/-- Unfolding of `remove_resource` when the identity is registered. -/
theorem remove_resource_found {R : Type} [DecidableEq R] (b : Banker R) (res : R) (id : Nat)
    (h : b.resource_id res = some id) :
    b.remove_resource res
      = ({ b with
            resources := b.resources.set id none
            recycle := b.recycle ++ [id]
            available := b.available.set id 0
            max := zeroCol b.max id
            allocated := zeroCol b.allocated id
            need := zeroCol b.need id }, true) := by
  unfold Banker.remove_resource
  rw [h]

/-- C9 (amended): the register–unregister–register slot-reuse property
holds provided the recycle queue holds at most one slot when A is
registered (so the queue is empty once A has taken its slot; with two or
more queued slots the FIFO order hands B an older slot instead, see the
counterexample). Under that proviso — with A not already registered,
queued slot ids in range, and `available` aligned with `resources` — B
occupies A's former slot `s = newSlot b`, `available[s]` is B's total,
every task row reads zero at slot `s`, and unregistering an identity
that is not registered returns false and changes nothing. -/
theorem c9_slot_reuse_amended {R : Type} [DecidableEq R] (b : Banker R) (A B : R)
    (tA tB s : Nat)
    (hA : (some A) ∉ b.resources)
    (hq : b.recycle.length ≤ 1)
    (hv : ∀ id ∈ b.recycle, id < b.resources.length)
    (hl : b.available.length = b.resources.length)
    (hs : s = newSlot b) :
    ((b.add_resource A tA).resources.getD s none = some A) ∧
    (((b.add_resource A tA).remove_resource A).2 = true) ∧
    ((((b.add_resource A tA).remove_resource A).1.add_resource B tB).resources.getD s none
      = some B) ∧
    ((((b.add_resource A tA).remove_resource A).1.add_resource B tB).available.getD s 0
      = tB) ∧
    (∀ t,
      getCell (((b.add_resource A tA).remove_resource A).1.add_resource B tB).max t s = 0 ∧
      getCell (((b.add_resource A tA).remove_resource A).1.add_resource B tB).allocated t s
        = 0 ∧
      getCell (((b.add_resource A tA).remove_resource A).1.add_resource B tB).need t s = 0) ∧
    (∀ (b2 : Banker R) (CR : R), b2.resource_id CR = none →
      b2.remove_resource CR = (b2, false)) := by
  have hlast : ∀ (b2 : Banker R) (CR : R), b2.resource_id CR = none →
      b2.remove_resource CR = (b2, false) := by
    intro b2 CR h
    unfold Banker.remove_resource
    rw [h]
  have hpfalse : ∀ y ∈ b.resources, (decide (y = some A)) = false := by
    intro y hy
    exact decide_eq_false (fun he => hA (he ▸ hy))
  cases hrec : b.recycle with
  | nil =>
      have hsv : s = b.resources.length := by rw [hs]; unfold newSlot; rw [hrec]
      have h1 := add_resource_fresh b A tA hrec
      have hfact1 : (b.add_resource A tA).resources.getD s none = some A := by
        rw [h1, hsv]
        exact getD_append_len b.resources (some A) none
      have hrid : (b.add_resource A tA).resource_id A = some s := by
        rw [h1]
        unfold Banker.resource_id
        show List.findIdx? (fun res => decide (res = some A)) (b.resources ++ [some A]) = some s
        rw [findIdx?_last _ (some A) (by simp) b.resources 0 hpfalse]
        rw [hsv]
        simp
      have h2 := remove_resource_found (b.add_resource A tA) A s hrid
      have h2rec : ((b.add_resource A tA).remove_resource A).1.recycle = [s] := by
        rw [h2]
        show (b.add_resource A tA).recycle ++ [s] = [s]
        rw [h1]
        show b.recycle ++ [s] = [s]
        rw [hrec]
        rfl
      have h3 := add_resource_pop ((b.add_resource A tA).remove_resource A).1 B tB s [] h2rec
      have hreslen : ((b.add_resource A tA).remove_resource A).1.resources.length
          = b.resources.length + 1 := by
        rw [h2]
        show ((b.add_resource A tA).resources.set s none).length = b.resources.length + 1
        rw [List.length_set, h1]
        show (b.resources ++ [some A]).length = b.resources.length + 1
        simp
      have havlen : ((b.add_resource A tA).remove_resource A).1.available.length
          = b.available.length + 1 := by
        rw [h2]
        show ((b.add_resource A tA).available.set s 0).length = b.available.length + 1
        rw [List.length_set, h1]
        show (b.available ++ [tA]).length = b.available.length + 1
        simp
      refine ⟨hfact1, by rw [h2], ?_, ?_, ?_, hlast⟩
      · rw [h3]
        show (((b.add_resource A tA).remove_resource A).1.resources.set s (some B)).getD s none
          = some B
        apply getD_set_self
        rw [hreslen]
        omega
      · rw [h3]
        show (((b.add_resource A tA).remove_resource A).1.available.set s tB).getD s 0 = tB
        apply getD_set_self
        rw [havlen, hl]
        omega
      · intro t
        rw [h3]
        refine ⟨?_, ?_, ?_⟩ <;> rw [h2] <;> exact getCell_zeroCol_self _ t s
  | cons id rest =>
      rw [hrec] at hq
      have hrest : rest = [] := by
        simp only [List.length_cons] at hq
        exact List.eq_nil_of_length_eq_zero (by omega)
      have hid : id < b.resources.length := hv id (by rw [hrec]; exact List.mem_cons_self id rest)
      have hsv : s = id := by rw [hs]; unfold newSlot; rw [hrec]
      have h1 := add_resource_pop b A tA id rest hrec
      have hfact1 : (b.add_resource A tA).resources.getD s none = some A := by
        rw [h1, hsv]
        exact getD_set_self b.resources id (some A) none hid
      have hrid : (b.add_resource A tA).resource_id A = some s := by
        rw [h1]
        unfold Banker.resource_id
        show List.findIdx? (fun res => decide (res = some A)) (b.resources.set id (some A))
          = some s
        rw [findIdx?_set_first _ (some A) (by simp) b.resources id 0 hid hpfalse]
        rw [hsv]
        simp
      have h2 := remove_resource_found (b.add_resource A tA) A s hrid
      have h2rec : ((b.add_resource A tA).remove_resource A).1.recycle = [s] := by
        rw [h2]
        show (b.add_resource A tA).recycle ++ [s] = [s]
        rw [h1]
        show rest ++ [s] = [s]
        rw [hrest]
        rfl
      have h3 := add_resource_pop ((b.add_resource A tA).remove_resource A).1 B tB s [] h2rec
      have hreslen : ((b.add_resource A tA).remove_resource A).1.resources.length
          = b.resources.length := by
        rw [h2]
        show ((b.add_resource A tA).resources.set s none).length = b.resources.length
        rw [List.length_set, h1]
        show (b.resources.set id (some A)).length = b.resources.length
        rw [List.length_set]
      have havlen : ((b.add_resource A tA).remove_resource A).1.available.length
          = b.available.length := by
        rw [h2]
        show ((b.add_resource A tA).available.set s 0).length = b.available.length
        rw [List.length_set, h1]
        show (b.available.set id tA).length = b.available.length
        rw [List.length_set]
      refine ⟨hfact1, by rw [h2], ?_, ?_, ?_, hlast⟩
      · rw [h3]
        show (((b.add_resource A tA).remove_resource A).1.resources.set s (some B)).getD s none
          = some B
        apply getD_set_self
        rw [hreslen]
        omega
      · rw [h3]
        show (((b.add_resource A tA).remove_resource A).1.available.set s tB).getD s 0 = tB
        apply getD_set_self
        rw [havlen, hl]
        omega
      · intro t
        rw [h3]
        refine ⟨?_, ?_, ?_⟩ <;> rw [h2] <;> exact getCell_zeroCol_self _ t s

/-- C9 witness: the amended theorem applied to `bOneSlot` (one queued
recycled slot), registering A = 20 then B = 21 — B lands exactly in A's
former slot 0 with its total 7. -/
theorem c9_slot_reuse_amended_witness :
    ((bOneSlot.add_resource 20 5).resources.getD 0 none = some 20) ∧
    (((bOneSlot.add_resource 20 5).remove_resource 20).2 = true) ∧
    ((((bOneSlot.add_resource 20 5).remove_resource 20).1.add_resource 21 7).resources.getD 0
      none = some 21) ∧
    ((((bOneSlot.add_resource 20 5).remove_resource 20).1.add_resource 21 7).available.getD 0 0
      = 7) :=
  ⟨(c9_slot_reuse_amended bOneSlot 20 21 5 7 0 (by decide) (by decide) (by decide) (by decide)
      (by decide)).1,
   (c9_slot_reuse_amended bOneSlot 20 21 5 7 0 (by decide) (by decide) (by decide) (by decide)
      (by decide)).2.1,
   (c9_slot_reuse_amended bOneSlot 20 21 5 7 0 (by decide) (by decide) (by decide) (by decide)
      (by decide)).2.2.1,
   (c9_slot_reuse_amended bOneSlot 20 21 5 7 0 (by decide) (by decide) (by decide) (by decide)
      (by decide)).2.2.2.1⟩

/-- `try_request` restores the ledger exactly, on every path: the raise
of `max`/`need` is rolled back by `updateCell_roundtrip`. -/
theorem try_request_frame {R : Type} [DecidableEq R] (b : Banker R) (t : Nat) (res : R)
    (a : Nat) : (b.try_request t res a).1 = b := by
  unfold Banker.try_request
  split
  · rfl
  · split
    · rfl
    · split
      · rfl
      · show ({ b with
            max := updateCell (updateCell b.max t _ (fun x => x + a)) t _ (fun x => x - a)
            need := updateCell (updateCell b.need t _ (fun x => x + a)) t _
              (fun x => x - a) } : Banker R) = b
        rw [updateCell_roundtrip, updateCell_roundtrip]

/-- C5: `try_request` has no side effect — the returned ledger equals the
input on every path — and its boolean is `is_safe` of the hypothetical
state with `max[t][rid]` and `need[t][rid]` raised by `amount`
(`allocated` untouched) when the task id is in range, the identity is
registered at `rid` and `amount ≤ available[rid]`; it is `false` when
the task id is out of range, the identity is unknown, or `amount`
exceeds `available`. -/
theorem c5_try_request_spec {R : Type} [DecidableEq R] (b : Banker R) (t : Nat) (res : R)
    (a rid : Nat) :
    (b.try_request t res a).1 = b ∧
    (t < b.num_tasks → b.resource_id res = some rid → a ≤ b.available.getD rid 0 →
      (b.try_request t res a).2 =
        Banker.is_safe { b with
          max := updateCell b.max t rid (fun x => x + a)
          need := updateCell b.need t rid (fun x => x + a) }) ∧
    (b.num_tasks ≤ t → (b.try_request t res a).2 = false) ∧
    (b.resource_id res = none → (b.try_request t res a).2 = false) ∧
    (∀ rid2, b.resource_id res = some rid2 → b.available.getD rid2 0 < a →
      (b.try_request t res a).2 = false) := by
  refine ⟨try_request_frame b t res a, ?_, ?_, ?_, ?_⟩
  · intro h1 h2 h3
    unfold Banker.try_request
    rw [if_neg (Nat.not_le.mpr h1), h2]
    simp only []
    rw [if_neg (Nat.not_lt.mpr h3)]
  · intro h1
    unfold Banker.try_request
    rw [if_pos h1]
  · intro h1
    unfold Banker.try_request
    split
    · rfl
    · rw [h1]
  · intro rid2 h1 h2
    unfold Banker.try_request
    split
    · rfl
    · rw [h1]
      simp only []
      rw [if_pos h2]

/-- C5 witness: the theorem applied to the scenario ledger, task 1
asking for 4 of the 10 available units of resource 1 at slot 0. -/
theorem c5_try_request_spec_witness :
    (bScenario.try_request 1 1 4).1 = bScenario ∧
    (bScenario.try_request 1 1 4).2 =
      Banker.is_safe { bScenario with
        max := updateCell bScenario.max 1 0 (fun x => x + 4)
        need := updateCell bScenario.need 1 0 (fun x => x + 4) } :=
  ⟨(c5_try_request_spec bScenario 1 1 4 0).1,
   (c5_try_request_spec bScenario 1 1 4 0).2.1 (by decide) (by decide) (by decide)⟩

/-!
C3: need consistency. Cell-level lemmas for each operation.
-/

theorem getD_map_zero : ∀ (row : List Nat) (r : Nat), (row.map (fun _ => 0)).getD r 0 = 0
  | [], 0 => rfl
  | [], _ + 1 => rfl
  | _ :: _, 0 => rfl
  | _ :: row, r + 1 => getD_map_zero row r

theorem getCell_zeroRow_self (m : List (List Nat)) (i r : Nat) :
    getCell (zeroRow m i) i r = 0 := by
  by_cases hi : i < m.length
  · unfold zeroRow getCell
    rw [getD_set_self m i _ [] hi]
    exact getD_map_zero (m.getD i []) r
  · unfold zeroRow
    rw [set_oob m i _ (Nat.le_of_not_lt hi)]
    exact getCell_oob_row m i r (Nat.le_of_not_lt hi)

theorem getCell_zeroRow_ne (m : List (List Nat)) (i t r : Nat) (h : t ≠ i) :
    getCell (zeroRow m i) t r = getCell m t r := by
  unfold zeroRow getCell
  rw [getD_set_ne m i t _ [] (fun he => h he.symm)]

theorem getCell_zeroCol_ne : ∀ (m : List (List Nat)) (j t r : Nat), r ≠ j →
    getCell (zeroCol m j) t r = getCell m t r
  | [], _, t, r, _ => by
      unfold zeroCol
      rfl
  | row :: _, j, 0, r, h => getD_set_ne row j r 0 0 (fun he => h he.symm)
  | _ :: m, j, t + 1, r, h => getCell_zeroCol_ne m j t r h

theorem getCell_push_zero (m : List (List Nat)) (k : Nat) :
    ∀ (t r : Nat), getCell (m ++ [List.replicate k 0]) t r = getCell m t r := by
  intro t r
  rcases Nat.lt_trichotomy t m.length with h | h | h
  · unfold getCell
    rw [getD_append_lt m _ t [] h]
  · unfold getCell
    subst h
    rw [getD_append_len m _ []]
    rw [getD_oob m m.length [] (Nat.le_refl _)]
    by_cases hr : r < k
    · rw [getD_replicate_of_lt k r 0 0 hr]
      rfl
    · rw [getD_oob _ r 0 (by rw [List.length_replicate]; omega)]
      rfl
  · unfold getCell
    rw [getD_oob (m ++ _) t [] (by rw [List.length_append]; simp; omega)]
    rw [getD_oob m t [] (by omega)]

theorem getCell_map_push_zero : ∀ (m : List (List Nat)) (t r : Nat),
    getCell (m.map (fun task => task ++ [0])) t r = getCell m t r
  | [], t, _ => by unfold getCell; rfl
  | row :: _, 0, r => by
      show (row ++ [0]).getD r 0 = row.getD r 0
      rcases Nat.lt_trichotomy r row.length with h | h | h
      · exact getD_append_lt row [0] r 0 h
      · subst h
        rw [getD_append_len row 0 0, getD_oob row row.length 0 (Nat.le_refl _)]
      · rw [getD_oob (row ++ [0]) r 0 (by rw [List.length_append]; simp; omega)]
        rw [getD_oob row r 0 (by omega)]
  | _ :: m, t + 1, r => getCell_map_push_zero m t r

theorem getCell_updateCell_self (m : List (List Nat)) (i j : Nat) (f : Nat → Nat)
    (hi : i < m.length) (hj : j < (m.getD i []).length) :
    getCell (updateCell m i j f) i j = f (getCell m i j) := by
  unfold updateCell getCell
  rw [getD_set_self m i _ [] hi]
  exact getD_set_self (m.getD i []) j _ 0 hj

theorem getCell_oob_col (m : List (List Nat)) (t r : Nat) (h : (m.getD t []).length ≤ r) :
    getCell m t r = 0 :=
  getD_oob (m.getD t []) r 0 h

theorem getD_mem {α : Type} : ∀ (l : List α) (i : Nat) (d : α), i < l.length → l.getD i d ∈ l
  | [], i, _, h => absurd h (Nat.not_lt_zero i)
  | a :: l, 0, _, _ => List.mem_cons_self a l
  | _ :: l, i + 1, d, h => List.mem_cons_of_mem _ (getD_mem l i d (Nat.lt_of_succ_lt_succ h))

/-- Unfolding of `request` when all three `assert!`-style guards pass. -/
theorem request_success {R : Type} [DecidableEq R] (b : Banker R) (t : Nat) (res : R)
    (a rid : Nat) (h1 : t < b.num_tasks) (h2 : b.resource_id res = some rid)
    (h3 : a ≤ b.available.getD rid 0) :
    b.request t res a = some { b with
      max := updateCell b.max t rid (fun x => x + a)
      need := updateCell b.need t rid (fun x => x + a)
      allocated := updateCell b.allocated t rid (fun x => x + a)
      available := b.available.set rid (b.available.getD rid 0 - a) } := by
  unfold Banker.request
  rw [if_neg (Nat.not_le.mpr h1), h2]
  simp only []
  rw [if_neg (Nat.not_lt.mpr h3)]

/-- Unfolding of `release` when all guards pass. -/
theorem release_success {R : Type} [DecidableEq R] (b : Banker R) (t : Nat) (res : R)
    (a rid : Nat) (h1 : t < b.num_tasks) (h2 : b.resource_id res = some rid)
    (h3 : a ≤ getCell b.allocated t rid) :
    b.release t res a
      = ({ b with allocated := updateCell b.allocated t rid (fun x => x - a) }, true) := by
  unfold Banker.release
  rw [if_neg (Nat.not_le.mpr h1), h2]
  simp only []
  rw [if_neg (Nat.not_lt.mpr h3)]

/-- C3: counterexample. A `request` of 7 units by task 0 on a consistent
ledger leaves `need[0][0] = 7` while `max[0][0] − allocated[0][0] = 0`
(the code raises `need` together with `allocated`), and a successful
`release` of 3 units on the hand-built consistent ledger `bManual`
(need 2 = max 7 − allocated 5) leaves `need[0][0] = 2` while
`max − allocated` becomes 5 — so the identity fails after both
operations the claim covers. -/
theorem c3_need_consistency_counterexample :
    NeedConsistent bReqCx ∧
    bReqCx.request 0 1 7 = some bReqCx2 ∧
    ¬ NeedConsistent bReqCx2 ∧
    NeedConsistent bManual ∧
    (bManual.release 0 1 3).2 = true ∧
    ¬ NeedConsistent (bManual.release 0 1 3).1 := by
  decide

/-- C3 (amended): `need = max − allocated` holds on the fresh ledger and
is preserved by `add_task`, `remove_task`, `add_resource`,
`remove_resource` and `try_request` (shape well-formedness required for
the row/column-appending operations), but not by `request` or `release`:
a granted `request` of `a` raises `need[t][r]` by `a` while leaving
`max[t][r] − allocated[t][r]` unchanged, and a successful `release` of
`a` leaves `need` and `max` untouched while lowering `allocated` — so
for `a > 0` the identity fails right after either operation. -/
theorem c3_need_consistency_amended {R : Type} [DecidableEq R] (b : Banker R) :
    NeedConsistent (Banker.new R) ∧
    (WF b → NeedConsistent b → NeedConsistent (b.add_task).1) ∧
    (∀ i, NeedConsistent b → NeedConsistent (b.remove_task i).1) ∧
    (∀ res total, WF b → NeedConsistent b → NeedConsistent (b.add_resource res total)) ∧
    (∀ res, NeedConsistent b → NeedConsistent (b.remove_resource res).1) ∧
    (∀ t res a, NeedConsistent b → NeedConsistent (b.try_request t res a).1) ∧
    (∀ t res a rid, t < b.num_tasks → b.resource_id res = some rid →
      a ≤ b.available.getD rid 0 →
      t < b.need.length → rid < (b.need.getD t []).length →
      t < b.max.length → rid < (b.max.getD t []).length →
      t < b.allocated.length → rid < (b.allocated.getD t []).length →
      ∀ b2, b.request t res a = some b2 →
        getCell b2.need t rid = getCell b.need t rid + a ∧
        getCell b2.max t rid - getCell b2.allocated t rid
          = getCell b.max t rid - getCell b.allocated t rid ∧
        (0 < a → getCell b.need t rid = getCell b.max t rid - getCell b.allocated t rid →
          getCell b2.need t rid ≠ getCell b2.max t rid - getCell b2.allocated t rid)) ∧
    (∀ t res a rid, t < b.num_tasks → b.resource_id res = some rid →
      a ≤ getCell b.allocated t rid →
      t < b.allocated.length → rid < (b.allocated.getD t []).length →
      (b.release t res a).2 = true ∧
      (b.release t res a).1.need = b.need ∧
      (b.release t res a).1.max = b.max ∧
      getCell (b.release t res a).1.allocated t rid = getCell b.allocated t rid - a ∧
      (0 < a → getCell b.allocated t rid ≤ getCell b.max t rid →
        getCell b.need t rid = getCell b.max t rid - getCell b.allocated t rid →
        getCell (b.release t res a).1.need t rid
          ≠ getCell (b.release t res a).1.max t rid
            - getCell (b.release t res a).1.allocated t rid)) := by
  refine ⟨?_, ?_, ?_, ?_, ?_, ?_, ?_, ?_⟩
  · intro t ht r hr
    simp [Banker.new] at hr
  · intro hwf hnc t ht r hr
    obtain ⟨-, hnl, hal, hml, -, -, -⟩ := hwf
    show getCell (b.need ++ [List.replicate b.resources.length 0]) t r
      = getCell (b.max ++ [List.replicate b.resources.length 0]) t r
        - getCell (b.allocated ++ [List.replicate b.resources.length 0]) t r
    rw [getCell_push_zero, getCell_push_zero, getCell_push_zero]
    rcases Nat.lt_or_ge t b.num_tasks with h | h
    · exact hnc t h r hr
    · have ht' : t = b.num_tasks := by
        have : t < b.num_tasks + 1 := ht
        omega
      subst ht'
      rw [getCell_oob_row b.need _ r (by omega), getCell_oob_row b.max _ r (by omega),
        getCell_oob_row b.allocated _ r (by omega)]
  · intro i hnc
    unfold Banker.remove_task
    split
    · exact hnc
    · intro t ht r hr
      show getCell (zeroRow b.need i) t r
        = getCell (zeroRow b.max i) t r - getCell (zeroRow b.allocated i) t r
      by_cases hti : t = i
      · subst hti
        rw [getCell_zeroRow_self, getCell_zeroRow_self, getCell_zeroRow_self]
      · rw [getCell_zeroRow_ne _ _ _ _ hti, getCell_zeroRow_ne _ _ _ _ hti,
          getCell_zeroRow_ne _ _ _ _ hti]
        exact hnc t ht r hr
  · intro res total hwf hnc
    obtain ⟨-, hnl, hal, hml, hnr, har, hmr⟩ := hwf
    cases hrec : b.recycle with
    | cons id rest =>
        rw [add_resource_pop b res total id rest hrec]
        intro t ht r hr
        show getCell b.need t r = getCell b.max t r - getCell b.allocated t r
        rw [List.length_set] at hr
        exact hnc t ht r hr
    | nil =>
        rw [add_resource_fresh b res total hrec]
        intro t ht r hr
        show getCell (b.need.map (fun task => task ++ [0])) t r
          = getCell (b.max.map (fun task => task ++ [0])) t r
            - getCell (b.allocated.map (fun task => task ++ [0])) t r
        rw [getCell_map_push_zero, getCell_map_push_zero, getCell_map_push_zero]
        rw [List.length_append] at hr
        simp only [List.length_cons, List.length_nil] at hr
        rcases Nat.lt_or_ge r b.resources.length with h | h
        · exact hnc t ht r h
        · have hr' : r = b.resources.length := by omega
          subst hr'
          have hz : ∀ (m : List (List Nat)), m.length = b.num_tasks →
              (∀ row ∈ m, row.length = b.resources.length) →
              getCell m t b.resources.length = 0 := by
            intro m hmlen hrows
            by_cases hm : t < m.length
            · exact getCell_oob_col m t _ (by rw [hrows _ (getD_mem m t [] hm)])
            · exact getCell_oob_row m t _ (Nat.le_of_not_lt hm)
          rw [hz b.need hnl hnr, hz b.max hml hmr, hz b.allocated hal har]
  · intro res hnc
    cases hres : b.resource_id res with
    | none =>
        unfold Banker.remove_resource
        rw [hres]
        exact hnc
    | some id =>
        rw [remove_resource_found b res id hres]
        intro t ht r hr
        show getCell (zeroCol b.need id) t r
          = getCell (zeroCol b.max id) t r - getCell (zeroCol b.allocated id) t r
        rw [List.length_set] at hr
        by_cases hri : r = id
        · subst hri
          rw [getCell_zeroCol_self, getCell_zeroCol_self, getCell_zeroCol_self]
        · rw [getCell_zeroCol_ne _ _ _ _ hri, getCell_zeroCol_ne _ _ _ _ hri,
            getCell_zeroCol_ne _ _ _ _ hri]
          exact hnc t ht r hr
  · intro t res a hnc
    rw [try_request_frame]
    exact hnc
  · intro t res a rid h1 h2 h3 hn1 hn2 hm1 hm2 ha1 ha2 b2 hreq
    have hsucc := request_success b t res a rid h1 h2 h3
    have hb2 : b2 = { b with
        max := updateCell b.max t rid (fun x => x + a)
        need := updateCell b.need t rid (fun x => x + a)
        allocated := updateCell b.allocated t rid (fun x => x + a)
        available := b.available.set rid (b.available.getD rid 0 - a) } :=
      (Option.some_inj.mp (hsucc.symm.trans hreq)).symm
    subst hb2
    have en : getCell (updateCell b.need t rid (fun x => x + a)) t rid
        = getCell b.need t rid + a := getCell_updateCell_self b.need t rid _ hn1 hn2
    have em : getCell (updateCell b.max t rid (fun x => x + a)) t rid
        = getCell b.max t rid + a := getCell_updateCell_self b.max t rid _ hm1 hm2
    have ea : getCell (updateCell b.allocated t rid (fun x => x + a)) t rid
        = getCell b.allocated t rid + a := getCell_updateCell_self b.allocated t rid _ ha1 ha2
    refine ⟨en, ?_, ?_⟩
    · show getCell (updateCell b.max t rid (fun x => x + a)) t rid
        - getCell (updateCell b.allocated t rid (fun x => x + a)) t rid = _
      rw [em, ea]
      omega
    · intro hpos hcons
      show getCell (updateCell b.need t rid (fun x => x + a)) t rid
        ≠ getCell (updateCell b.max t rid (fun x => x + a)) t rid
          - getCell (updateCell b.allocated t rid (fun x => x + a)) t rid
      rw [en, em, ea]
      omega
  · intro t res a rid h1 h2 h3 ha1 ha2
    have hrel := release_success b t res a rid h1 h2 h3
    rw [hrel]
    have ea : getCell (updateCell b.allocated t rid (fun x => x - a)) t rid
        = getCell b.allocated t rid - a := getCell_updateCell_self b.allocated t rid _ ha1 ha2
    refine ⟨rfl, rfl, rfl, ea, ?_⟩
    intro hpos hle hcons
    show getCell b.need t rid
      ≠ getCell b.max t rid - getCell (updateCell b.allocated t rid (fun x => x - a)) t rid
    rw [ea]
    omega

/-- C3 witness: the amended theorem applied to the consistent ledger
`bManual` — `add_task` preserves consistency, and the release conjunct
at task 0, resource 1, amount 3. -/
theorem c3_need_consistency_amended_witness :
    NeedConsistent (bManual.add_task).1 ∧
    (bManual.release 0 1 3).2 = true ∧
    getCell (bManual.release 0 1 3).1.allocated 0 0 = 2 :=
  ⟨(c3_need_consistency_amended bManual).2.1 (by decide) (by decide),
   ((c3_need_consistency_amended bManual).2.2.2.2.2.2.2 0 1 3 0 (by decide) (by decide)
     (by decide) (by decide) (by decide)).1,
   ((c3_need_consistency_amended bManual).2.2.2.2.2.2.2 0 1 3 0 (by decide) (by decide)
     (by decide) (by decide) (by decide)).2.2.2.1⟩

/-!
C1 and C10: the safety checker. Pointwise behaviour of `bumpAll`,
monotonicity of one scan step, and the loop invariant.
-/

theorem bumpAll_length (w row : List Nat) : ∀ n, (bumpAll w row n).length = w.length
  | 0 => rfl
  | n + 1 => by
      show ((bumpAll w row n).set n _).length = w.length
      rw [List.length_set, bumpAll_length w row n]

theorem bumpAll_getD (w row : List Nat) :
    ∀ (n r : Nat), (bumpAll w row n).getD r 0
      = if r < n ∧ r < w.length then w.getD r 0 + row.getD r 0 else w.getD r 0 := by
  intro n
  induction n with
  | zero =>
      intro r
      rw [if_neg (by omega)]
      rfl
  | succ n ih =>
      intro r
      show ((bumpAll w row n).set n ((bumpAll w row n).getD n 0 + row.getD n 0)).getD r 0 = _
      by_cases hrn : r = n
      · subst hrn
        by_cases hlen : r < w.length
        · rw [getD_set_self _ r _ 0 (by rw [bumpAll_length]; exact hlen)]
          rw [ih r, if_neg (by omega), if_pos ⟨Nat.lt_succ_self r, hlen⟩]
        · rw [set_oob _ r _ (by rw [bumpAll_length]; omega)]
          rw [ih r, if_neg (by omega), if_neg (by omega)]
      · rw [getD_set_ne _ n r _ 0 (fun he => hrn he.symm)]
        rw [ih r]
        by_cases hc : r < n ∧ r < w.length
        · rw [if_pos hc, if_pos ⟨by omega, hc.2⟩]
        · rw [if_neg hc, if_neg (by omega)]

theorem bumpAll_getD_le (w row : List Nat) (n r : Nat) :
    w.getD r 0 ≤ (bumpAll w row n).getD r 0 := by
  rw [bumpAll_getD]
  split
  · omega
  · exact Nat.le_refl _

theorem canFinish_iff (nr w : List Nat) (n : Nat) :
    canFinish nr w n = true ↔ ∀ r, r < n → nr.getD r 0 ≤ w.getD r 0 := by
  unfold canFinish
  simp

theorem canFinish_mono (nr w1 w2 : List Nat) (n : Nat)
    (hw : ∀ r, w1.getD r 0 ≤ w2.getD r 0) (h : canFinish nr w1 n = true) :
    canFinish nr w2 n = true := by
  rw [canFinish_iff] at h ⊢
  intro r hr
  exact Nat.le_trans (h r hr) (hw r)

theorem scanStep_work_mono (need alloc : List (List Nat)) (nRes : Nat) (st : ScanSt)
    (t r : Nat) : st.work.getD r 0 ≤ (scanStep need alloc nRes st t).work.getD r 0 := by
  unfold scanStep
  split
  · exact Nat.le_refl _
  · split
    · exact bumpAll_getD_le st.work _ nRes r
    · exact Nat.le_refl _

theorem scanStep_finish_ne (need alloc : List (List Nat)) (nRes : Nat) (st : ScanSt)
    (u t : Nat) (h : u ≠ t) :
    (scanStep need alloc nRes st u).finish.getD t false = st.finish.getD t false := by
  unfold scanStep
  split
  · rfl
  · split
    · exact getD_set_ne st.finish u t true false h
    · rfl

theorem scanStep_found_mono (need alloc : List (List Nat)) (nRes : Nat) (st : ScanSt)
    (t : Nat) (h : st.found = true) : (scanStep need alloc nRes st t).found = true := by
  unfold scanStep
  split
  · exact h
  · split
    · rfl
    · exact h

theorem foldl_found_mono (need alloc : List (List Nat)) (nRes : Nat) :
    ∀ (l : List Nat) (st : ScanSt), st.found = true →
      (l.foldl (scanStep need alloc nRes) st).found = true
  | [], _, h => h
  | t :: l, st, h => by
      rw [List.foldl_cons]
      exact foldl_found_mono need alloc nRes l _ (scanStep_found_mono need alloc nRes st t h)

theorem foldl_count_le (need alloc : List (List Nat)) (nRes : Nat) :
    ∀ (l : List Nat) (st : ScanSt),
      st.count ≤ (l.foldl (scanStep need alloc nRes) st).count
  | [], _ => Nat.le_refl _
  | t :: l, st => by
      rw [List.foldl_cons]
      refine Nat.le_trans ?_ (foldl_count_le need alloc nRes l _)
      unfold scanStep
      split
      · exact Nat.le_refl _
      · split
        · exact Nat.le_succ _
        · exact Nat.le_refl _

theorem foldl_found_count (need alloc : List (List Nat)) (nRes : Nat) :
    ∀ (l : List Nat) (st : ScanSt),
      (l.foldl (scanStep need alloc nRes) st).found = true →
      st.found = true ∨ st.count < (l.foldl (scanStep need alloc nRes) st).count
  | [], _, h => Or.inl h
  | t :: l, st, h => by
      rw [List.foldl_cons] at h
      have hstep : st.count ≤ (scanStep need alloc nRes st t).count ∧
          ((scanStep need alloc nRes st t).found = true →
            st.found = true ∨ st.count < (scanStep need alloc nRes st t).count) := by
        unfold scanStep
        split
        · exact ⟨Nat.le_refl _, fun hfd => Or.inl hfd⟩
        · split
          · exact ⟨Nat.le_succ _, fun _ => Or.inr (Nat.lt_succ_self _)⟩
          · exact ⟨Nat.le_refl _, fun hfd => Or.inl hfd⟩
      rcases foldl_found_count need alloc nRes l _ h with h1 | h1
      · rcases hstep.2 h1 with h2 | h2
        · exact Or.inl h2
        · exact Or.inr (Nat.lt_of_lt_of_le h2 (foldl_count_le need alloc nRes l _))
      · exact Or.inr (Nat.lt_of_le_of_lt hstep.1 h1)

theorem scanPass_count_lt (need alloc : List (List Nat)) (nRes nTasks : Nat)
    (work : List Nat) (finish : List Bool) (count : Nat)
    (h : (scanPass need alloc nRes nTasks work finish count).found = true) :
    count < (scanPass need alloc nRes nTasks work finish count).count := by
  unfold scanPass at h ⊢
  rcases foldl_found_count need alloc nRes (List.range nTasks)
    { work := work, finish := finish, count := count, found := false } h with h1 | h1
  · exact absurd h1 Bool.false_ne_true
  · exact h1

theorem pass_finds (need alloc : List (List Nat)) (nRes : Nat) :
    ∀ (l : List Nat) (st : ScanSt) (t : Nat), t ∈ l →
      st.finish.getD t false = false →
      canFinish (need.getD t []) st.work nRes = true →
      (l.foldl (scanStep need alloc nRes) st).found = true := by
  intro l
  induction l with
  | nil => intro st t h; cases h
  | cons u l ih =>
      intro st t hmem hfin hcan
      rw [List.foldl_cons]
      by_cases he : u = t
      · subst he
        have hstep : (scanStep need alloc nRes st u).found = true := by
          unfold scanStep
          rw [hfin]
          rw [if_neg (by simp)]
          rw [hcan]
          rw [if_pos rfl]
        exact foldl_found_mono need alloc nRes l _ hstep
      · rcases List.mem_cons.mp hmem with h | h
        · exact absurd h.symm he
        · exact ih (scanStep need alloc nRes st u) t h
            (by rw [scanStep_finish_ne need alloc nRes st u t he]; exact hfin)
            (canFinish_mono _ st.work _ nRes
              (fun r => scanStep_work_mono need alloc nRes st u r) hcan)

theorem workOf_append {R : Type} (b : Banker R) (σ : List Nat) (t r : Nat) :
    workOf b (σ ++ [t]) r = workOf b σ r + getCell b.allocated t r := by
  unfold workOf
  rw [List.map_append, List.sum_append]
  simp [Nat.add_assoc]

theorem mem_take_getD {α : Type} (d : α) :
    ∀ (l : List α) (k : Nat) (x : α), x ∈ l.take k →
      ∃ j, j < k ∧ j < l.length ∧ l.getD j d = x
  | [], k, x, h => by simp at h
  | a :: l, 0, x, h => by simp at h
  | a :: l, k + 1, x, h => by
      rw [List.take_succ_cons] at h
      rcases List.mem_cons.mp h with h | h
      · refine ⟨0, ?_, ?_, h.symm⟩
        · omega
        · simp
      · obtain ⟨j, hj, hjl, he⟩ := mem_take_getD d l k x h
        exact ⟨j + 1, Nat.succ_lt_succ hj, Nat.succ_lt_succ hjl, he⟩

theorem mem_exists_getD {α : Type} (d : α) :
    ∀ (l : List α) (x : α), x ∈ l → ∃ i, i < l.length ∧ l.getD i d = x
  | [], x, h => absurd h (List.not_mem_nil x)
  | a :: l, x, h => by
      rcases List.mem_cons.mp h with h | h
      · exact ⟨0, Nat.succ_pos l.length, h.symm⟩
      · obtain ⟨i, hi, he⟩ := mem_exists_getD d l x h
        exact ⟨i + 1, Nat.succ_lt_succ hi, he⟩

theorem subperm_map_sum_le (f : Nat → Nat) (l1 l2 : List Nat) (h : List.Subperm l1 l2) :
    (l1.map f).sum ≤ (l2.map f).sum := by
  obtain ⟨l, hp, hs⟩ := h
  calc (l1.map f).sum = (l.map f).sum := (List.Perm.sum_eq (hp.map f)).symm
    _ ≤ (l2.map f).sum := List.Sublist.sum_le_sum (hs.map f) (fun _ _ => Nat.zero_le _)

/-- One scan step preserves the loop invariant. -/
theorem scanStep_inv {R : Type} (b : Banker R) (hwf : WF b) (st : ScanSt) (t : Nat)
    (ht : t < b.num_tasks)
    (h : LoopInv b st.work st.finish st.count) :
    LoopInv b (scanStep b.need b.allocated b.resources.length st t).work
      (scanStep b.need b.allocated b.resources.length st t).finish
      (scanStep b.need b.allocated b.resources.length st t).count := by
  obtain ⟨σ, hnd, hlen, hmem, hwlen, hwork, hflen, hsafe⟩ := h
  obtain ⟨havl, hnl, hal, hml, hnr, har, hmr⟩ := hwf
  unfold scanStep
  split
  · exact ⟨σ, hnd, hlen, hmem, hwlen, hwork, hflen, hsafe⟩
  · next hfin =>
      have hfin' : st.finish.getD t false = false := by
        cases hb : st.finish.getD t false
        · rfl
        · exact absurd hb hfin
      have htn : t ∉ σ := by
        intro hmem'
        have := ((hmem t).mp hmem').2
        rw [hfin'] at this
        exact Bool.false_ne_true this
      split
      · next hcan =>
          refine ⟨σ ++ [t], ?_, ?_, ?_, ?_, ?_, ?_, ?_⟩
          · rw [List.nodup_append]
            refine ⟨hnd, List.nodup_singleton t, ?_⟩
            intro a ha hb
            rw [List.mem_singleton] at hb
            subst hb
            exact htn ha
          · show (σ ++ [t]).length = st.count + 1
            rw [List.length_append, hlen]
            rfl
          · intro u
            show u ∈ σ ++ [t] ↔ u < b.num_tasks ∧ (st.finish.set t true).getD u false = true
            rw [List.mem_append, List.mem_singleton]
            constructor
            · rintro (hu | rfl)
              · have hold := (hmem u).mp hu
                have hne : u ≠ t := fun he => htn (he ▸ hu)
                rw [getD_set_ne st.finish t u true false (fun he => hne he.symm)]
                exact hold
              · refine ⟨ht, ?_⟩
                rw [getD_set_self st.finish u true false (by rw [hflen]; exact ht)]
            · rintro ⟨hu, hfin2⟩
              by_cases he : u = t
              · exact Or.inr he
              · rw [getD_set_ne st.finish t u true false (fun h2 => he h2.symm)] at hfin2
                exact Or.inl ((hmem u).mpr ⟨hu, hfin2⟩)
          · show (bumpAll st.work (b.allocated.getD t []) b.resources.length).length = _
            rw [bumpAll_length]
            exact hwlen
          · intro r
            show (bumpAll st.work (b.allocated.getD t []) b.resources.length).getD r 0
              = workOf b (σ ++ [t]) r
            rw [bumpAll_getD, workOf_append]
            by_cases hr : r < b.resources.length
            · rw [if_pos ⟨hr, by rw [hwlen, havl]; exact hr⟩, hwork r]
              rfl
            · rw [if_neg (by rw [hwlen, havl]; omega), hwork r]
              have hz : getCell b.allocated t r = 0 := by
                apply getCell_oob_col
                rw [har _ (getD_mem b.allocated t [] (by rw [hal]; exact ht))]
                omega
              rw [hz, Nat.add_zero]
          · show (st.finish.set t true).length = b.num_tasks
            rw [List.length_set]
            exact hflen
          · intro i hi r hr
            rw [List.length_append] at hi
            simp only [List.length_cons, List.length_nil] at hi
            rcases Nat.lt_or_ge i σ.length with hilt | hige
            · show getCell b.need ((σ ++ [t]).getD i 0) r ≤ workOf b ((σ ++ [t]).take i) r
              rw [getD_append_lt σ [t] i 0 hilt,
                List.take_append_of_le_length (Nat.le_of_lt hilt)]
              exact hsafe i hilt r hr
            · have hieq : i = σ.length := by omega
              subst hieq
              show getCell b.need ((σ ++ [t]).getD σ.length 0) r
                ≤ workOf b ((σ ++ [t]).take σ.length) r
              rw [getD_append_len σ t 0, List.take_left σ [t]]
              have hc := (canFinish_iff (b.need.getD t []) st.work b.resources.length).mp
                hcan r hr
              rw [hwork r] at hc
              exact hc
      · next hcan => exact ⟨σ, hnd, hlen, hmem, hwlen, hwork, hflen, hsafe⟩

/-- A whole pass (fold over all task ids) preserves the loop invariant. -/
theorem foldl_inv {R : Type} (b : Banker R) (hwf : WF b) :
    ∀ (l : List Nat) (st : ScanSt), (∀ u ∈ l, u < b.num_tasks) →
      LoopInv b st.work st.finish st.count →
      LoopInv b (l.foldl (scanStep b.need b.allocated b.resources.length) st).work
        (l.foldl (scanStep b.need b.allocated b.resources.length) st).finish
        (l.foldl (scanStep b.need b.allocated b.resources.length) st).count
  | [], _, _, h => h
  | u :: l, st, hl, h => by
      rw [List.foldl_cons]
      exact foldl_inv b hwf l _ (fun v hv => hl v (List.mem_cons_of_mem u hv))
        (scanStep_inv b hwf st u (hl u (List.mem_cons_self u l)) h)

/-- When the loop exits with every task finished, the recorded order is a
safe ordering of all task rows. -/
theorem inv_complete {R : Type} (b : Banker R) (work : List Nat) (finish : List Bool)
    (count : Nat) (h : LoopInv b work finish count) (hc : b.num_tasks ≤ count) :
    ∃ σ, SafeOrdering b σ := by
  obtain ⟨σ, hnd, hlen, hmem, -, -, -, hsafe⟩ := h
  have hsub : σ ⊆ List.range b.num_tasks := fun x hx =>
    List.mem_range.mpr ((hmem x).mp hx).1
  have hperm : σ.Perm (List.range b.num_tasks) :=
    (hnd.subperm hsub).perm_of_length_le (by rw [List.length_range]; omega)
  refine ⟨σ, hperm, ?_⟩
  intro i hi r hr
  exact hsafe i hi r hr

/-- If a full pass over all tasks finds nothing finishable while some
task is still unfinished, no safe ordering of all task rows exists: the
first unfinished task of any candidate ordering would have been
finishable. -/
theorem pass_stuck {R : Type} (b : Banker R) (work : List Nat) (finish : List Bool)
    (count : Nat) (hInv : LoopInv b work finish count) (hcount : count < b.num_tasks)
    (hfound : (scanPass b.need b.allocated b.resources.length b.num_tasks work finish
      count).found = false) :
    ¬ ∃ σs, SafeOrdering b σs := by
  rintro ⟨σs, hperm, hsafe⟩
  obtain ⟨σ, hnd, hlen, hmem, hwlen, hwork, hflen, -⟩ := hInv
  have hσslen : σs.length = b.num_tasks := by
    rw [hperm.length_eq, List.length_range]
  have hσsnd : σs.Nodup := hperm.nodup_iff.mpr (List.nodup_range b.num_tasks)
  have hex : ∃ i, i < σs.length ∧ σs.getD i 0 ∉ σ := by
    by_contra hno
    push_neg at hno
    have hsub : σs ⊆ σ := by
      intro x hx
      obtain ⟨i, hi, he⟩ := mem_exists_getD 0 σs x hx
      rw [← he]
      exact hno i hi
    have hle := (hσsnd.subperm hsub).length_le
    omega
  have hP := Nat.find_spec hex
  have hi0len : Nat.find hex < σs.length := hP.1
  have htin : σs.getD (Nat.find hex) 0 ∉ σ := hP.2
  have htmem : σs.getD (Nat.find hex) 0 ∈ σs := getD_mem σs (Nat.find hex) 0 hi0len
  have htN : σs.getD (Nat.find hex) 0 < b.num_tasks :=
    List.mem_range.mp (hperm.subset htmem)
  have hfin : finish.getD (σs.getD (Nat.find hex) 0) false = false := by
    cases hb : finish.getD (σs.getD (Nat.find hex) 0) false
    · rfl
    · exact absurd ((hmem _).mpr ⟨htN, hb⟩) htin
  have hprior : ∀ x ∈ σs.take (Nat.find hex), x ∈ σ := by
    intro x hx
    obtain ⟨j, hj, hjlen, hje⟩ := mem_take_getD 0 σs (Nat.find hex) x hx
    have hnP := Nat.find_min hex hj
    rw [← hje]
    by_contra hxn
    exact hnP ⟨hjlen, hxn⟩
  have htake : List.Subperm (σs.take (Nat.find hex)) σ :=
    (hσsnd.sublist (List.take_sublist (Nat.find hex) σs)).subperm hprior
  have hcanf : canFinish (b.need.getD (σs.getD (Nat.find hex) 0) []) work
      b.resources.length = true := by
    rw [canFinish_iff]
    intro r hr
    have h1 := hsafe (Nat.find hex) hi0len r hr
    have h2 : workOf b (σs.take (Nat.find hex)) r ≤ workOf b σ r := by
      unfold workOf
      have := subperm_map_sum_le (fun u => getCell b.allocated u r) _ _ htake
      omega
    have h3 := hwork r
    show getCell b.need (σs.getD (Nat.find hex) 0) r ≤ work.getD r 0
    omega
  have hfd := pass_finds b.need b.allocated b.resources.length (List.range b.num_tasks)
    { work := work, finish := finish, count := count, found := false }
    (σs.getD (Nat.find hex) 0) (List.mem_range.mpr htN) hfin hcanf
  unfold scanPass at hfound
  rw [hfd] at hfound
  exact absurd hfound (by simp)

/-- The `while` loop of `is_safe` answers true exactly when a safe
ordering of all task rows exists, for any invariant-satisfying state. -/
theorem safeLoop_iff {R : Type} (b : Banker R) (hwf : WF b) :
    ∀ (fuel : Nat) (work : List Nat) (finish : List Bool) (count : Nat),
      b.num_tasks - count ≤ fuel → LoopInv b work finish count →
      (safeLoop b.need b.allocated b.resources.length b.num_tasks work finish count = true
        ↔ ∃ σ, SafeOrdering b σ) := by
  intro fuel
  induction fuel with
  | zero =>
      intro work finish count hfl hInv
      have hc : b.num_tasks ≤ count := by omega
      rw [safeLoop]
      rw [dif_neg (Nat.not_lt.mpr hc)]
      exact iff_of_true rfl (inv_complete b work finish count hInv hc)
  | succ fuel ih =>
      intro work finish count hfl hInv
      rw [safeLoop]
      by_cases hc : count < b.num_tasks
      · rw [dif_pos hc]
        by_cases hfd : (scanPass b.need b.allocated b.resources.length b.num_tasks work
          finish count).found = true
        · rw [dif_pos hfd]
          have hcnt := scanPass_count_lt b.need b.allocated b.resources.length b.num_tasks
            work finish count hfd
          apply ih
          · omega
          · exact foldl_inv b hwf (List.range b.num_tasks)
              { work := work, finish := finish, count := count, found := false }
              (fun u hu => List.mem_range.mp hu) hInv
        · rw [dif_neg hfd]
          have hfd' : (scanPass b.need b.allocated b.resources.length b.num_tasks work
              finish count).found = false := by
            cases hb : (scanPass b.need b.allocated b.resources.length b.num_tasks work
              finish count).found
            · rfl
            · exact absurd hb hfd
          exact iff_of_false Bool.false_ne_true
            (pass_stuck b work finish count hInv hc hfd')
      · rw [dif_neg hc]
        exact iff_of_true rfl (inv_complete b work finish count hInv (Nat.le_of_not_lt hc))

/-- C1: `is_safe` (a pure read of the ledger — it takes `&self` and
mutates nothing) returns true if and only if there is an ordering
`t1..tn` of all task rows such that every task's need row is covered by
`available` plus the allocations of the tasks ordered before it — the
finish-simulation fixed point succeeds in finishing every task. Requires
only shape well-formedness of the ledger. -/
theorem c1_is_safe_iff_safe_ordering {R : Type} (b : Banker R) (hwf : WF b) :
    b.is_safe = true ↔ ∃ σ, SafeOrdering b σ := by
  unfold Banker.is_safe
  apply safeLoop_iff b hwf b.num_tasks b.available (List.replicate b.num_tasks false) 0
    (by omega)
  refine ⟨[], List.nodup_nil, rfl, ?_, rfl, ?_, List.length_replicate .., ?_⟩
  · intro t
    constructor
    · intro h
      exact absurd h (List.not_mem_nil t)
    · rintro ⟨h1, h2⟩
      rw [getD_replicate_of_lt b.num_tasks t false false h1] at h2
      exact absurd h2 Bool.false_ne_true
  · intro r
    unfold workOf
    simp
  · intro i hi
    simp at hi

/-- C1 witness: the theorem applied to the concrete scenario ledger. -/
theorem c1_is_safe_iff_safe_ordering_witness :
    WF bScenario ∧ (bScenario.is_safe = true ↔ ∃ σ, SafeOrdering bScenario σ) :=
  ⟨by decide, c1_is_safe_iff_safe_ordering bScenario (by decide)⟩

/-- The fuel-bounded loop agrees with the unbounded `while` loop as soon
as the fuel covers `num_tasks − count` passes. -/
theorem loopFuel_eq_safeLoop (need alloc : List (List Nat)) (nRes nTasks : Nat) :
    ∀ (fuel : Nat) (work : List Nat) (finish : List Bool) (count : Nat),
      nTasks ≤ count + fuel →
      loopFuel need alloc nRes nTasks fuel work finish count
        = safeLoop need alloc nRes nTasks work finish count := by
  intro fuel
  induction fuel with
  | zero =>
      intro work finish count h
      have hc : nTasks ≤ count := by omega
      show decide (nTasks ≤ count) = _
      rw [safeLoop, dif_neg (Nat.not_lt.mpr hc)]
      exact decide_eq_true hc
  | succ fuel ih =>
      intro work finish count h
      show (if nTasks ≤ count then true
        else if (scanPass need alloc nRes nTasks work finish count).found then
          loopFuel need alloc nRes nTasks fuel
            (scanPass need alloc nRes nTasks work finish count).work
            (scanPass need alloc nRes nTasks work finish count).finish
            (scanPass need alloc nRes nTasks work finish count).count
        else false) = _
      rw [safeLoop]
      by_cases hc : nTasks ≤ count
      · rw [if_pos hc, dif_neg (Nat.not_lt.mpr hc)]
      · rw [if_neg hc, dif_pos (Nat.not_le.mp hc)]
        by_cases hfd : (scanPass need alloc nRes nTasks work finish count).found = true
        · rw [if_pos hfd, dif_pos hfd]
          apply ih
          have := scanPass_count_lt need alloc nRes nTasks work finish count hfd
          omega
        · rw [if_neg hfd, dif_neg hfd]

/-- C10: `is_safe` is total on every ledger state. Each pass of the
outer loop that continues strictly increases the finished count (first
conjunct), so `num_tasks − count` is a decreasing measure — the loop
body runs at most `num_tasks` times: running the loop with any fuel of
at least `num_tasks` bounded passes computes exactly `is_safe` (second
conjunct; `is_safe` itself is defined by well-founded recursion on that
measure). -/
theorem c10_is_safe_terminates {R : Type} (b : Banker R) (fuel : Nat) :
    (∀ (work : List Nat) (finish : List Bool) (count : Nat),
      (scanPass b.need b.allocated b.resources.length b.num_tasks work finish count).found
        = true →
      count < (scanPass b.need b.allocated b.resources.length b.num_tasks work finish
        count).count) ∧
    (b.num_tasks ≤ fuel → b.isSafeFuel fuel = b.is_safe) := by
  constructor
  · intro work finish count h
    exact scanPass_count_lt b.need b.allocated b.resources.length b.num_tasks work finish
      count h
  · intro h
    unfold Banker.isSafeFuel Banker.is_safe
    apply loopFuel_eq_safeLoop
    omega

/-- C10 witness: the theorem applied to the scenario ledger with fuel 5;
the first pass on the fresh scan state marks a task, increasing the
count from 0. -/
theorem c10_is_safe_terminates_witness :
    (scanPass bScenario.need bScenario.allocated 1 2 [10] [false, false] 0).found = true ∧
    0 < (scanPass bScenario.need bScenario.allocated 1 2 [10] [false, false] 0).count ∧
    bScenario.isSafeFuel 5 = bScenario.is_safe :=
  ⟨by decide,
   (c10_is_safe_terminates bScenario 5).1 [10] [false, false] 0 (by decide),
   (c10_is_safe_terminates bScenario 5).2 (by decide)⟩
